import Mathlib

/-!
Verification development for the `tcp_shim` proxy.

The repository translates legacy RakNet 3.25 traffic to a TCP/UDP hybrid
protocol.  This file gives a shallow embedding of the parts of the source
that the specification claims talk about:

* the length-prefixed framing layer of `src/tcpudp/mod.rs`
  (`Connection::send_raw` / `Connection::receive_raw` with its resumable
  `BufferOffset` decoder state);
* the redirect-interception logic `Bridge::scan_packets` and the
  `Bridge::server_receive` drain loop of `src/bridge.rs`;
* the per-tick stepping of `Shim::step` / `Shim::client_receive` and the
  orchestrator loop of `src/main.rs`.

Bytes are modelled as `Fin 256`, machine integers as `Nat` with explicit
reductions mod powers of two, fallible code as `Except`, and the sockets
as explicit value parameters (byte queues, read-event scripts, and
outcome oracles for the externally implemented RakNet adapter).
-/

/-- Bytes are modelled as `Fin 256`. -/
abbrev Byte := Fin 256

/-- Injects a natural number into a byte, reducing modulo 256 (Rust `as u8`). -/
def byte (n : Nat) : Byte := ⟨n % 256, Nat.mod_lt n (by norm_num)⟩

/-- Little-endian 32-bit decode of the 4-byte length field
(`u32::from_le_bytes(self.packet.length)`). -/
def leU32 (bs : List Byte) : Nat :=
  match bs with
  | [b0, b1, b2, b3] => b0.val + 256 * b1.val + 65536 * b2.val + 16777216 * b3.val
  | _ => 0

/-- Little-endian 32-bit encode: the 4 bytes `endio::LEWrite` emits for
`data.len() as u32` (the `% 256` in `byte` makes the `as u32` truncation explicit). -/
def leBytes4 (n : Nat) : List Byte :=
  [byte n, byte (n / 256), byte (n / 65536), byte (n / 16777216)]

/-- Little-endian 16-bit encode, as `endio::LEWrite` writes a `u16`. -/
def le16 (n : Nat) : List Byte := [byte n, byte (n / 256)]

/-- Overwrites `new.length` bytes of `buf` starting at offset `off`: the effect
of a Rust write into the subslice `buf[off..]`.  All uses in the embedding are
guarded so that `off + new.length ≤ buf.length`, as in the source. -/
def writeAt (buf : List Byte) (off : Nat) (new : List Byte) : List Byte :=
  buf.take off ++ new ++ buf.drop (off + new.length)

/-- Reads a little-endian `u16` at offset `off` (`endio::LERead` on
`&data[off..]`); every use is guarded by `off + 2 ≤ data.length`. -/
def readU16 (d : List Byte) (off : Nat) : Nat :=
  match d.drop off with
  | b0 :: b1 :: _ => b0.val + 256 * b1.val
  | _ => 0

/-- Byte of `d` at index `i` (defaulting to 0); uses mirror the source's
index accesses, which are guarded by explicit length checks. -/
def dAt (d : List Byte) (i : Nat) : Byte := d.getD i (byte 0)

/-- Error kinds of `std::io::ErrorKind` distinguished by the source, plus a
marker for a Rust panic caused by slicing out of bounds. -/
inductive ErrK
  | wouldBlock
  | connReset
  | connAborted
  | eof
  | panicOOB
  | other
deriving DecidableEq

/-- Decidable equality for `Except`, used to evaluate concrete runs. -/
instance {e a : Type} [DecidableEq e] [DecidableEq a] : DecidableEq (Except e a) := fun x y =>
  match x, y with
  | .ok u, .ok v => decidable_of_iff (u = v) (by simp)
  | .error u, .error v => decidable_of_iff (u = v) (by simp)
  | .ok _, .error _ => isFalse (fun hc => Except.noConfusion hc)
  | .error _, .ok _ => isFalse (fun hc => Except.noConfusion hc)

/-! ## Framing layer (`src/tcpudp/mod.rs`) -/

/-- `BufferOffset`: buffer for keeping packets that were only read in part
(tcpudp/mod.rs:21-26).  `reading_length` selects the phase, `offset` counts
the bytes already accumulated in the current phase, `length` is the 4-byte
scratch field for the length prefix, `buffer` the partially filled body. -/
structure BufferOffset where
  reading_length : Bool
  offset : Nat
  length : List Byte
  buffer : List Byte
deriving DecidableEq

/-- The decoder state `Connection::from` starts with (tcpudp/mod.rs:47-52). -/
def initBuf : BufferOffset :=
  ⟨true, 0, List.replicate 4 (byte 0), []⟩

/-- `Connection::send_raw` (tcpudp/mod.rs:62-66): the bytes put on the wire,
a 4-byte little-endian length prefix followed by the payload. -/
def sendRaw (data : List Byte) : List Byte :=
  leBytes4 data.length ++ data

/-- The body loop of `Connection::receive_raw` (tcpudp/mod.rs:94-107) run
against a transport whose receive buffer currently holds exactly `avail`
bytes: each `read` returns `min (requested) (buffered)` bytes, so the loop
accumulates `min avail.length (buffer.length - offset)` bytes in total and
then either completes the message (resetting to `AwaitingLength`) or hits an
empty buffer and surfaces `WouldBlock` (`none`) with its progress retained.
Returns (result, new state, bytes left in the transport buffer). -/
def recvBody (st : BufferOffset) (avail : List Byte) :
    Option (List Byte) × BufferOffset × List Byte :=
  let n := min avail.length (st.buffer.length - st.offset)
  let buf1 := writeAt st.buffer st.offset (avail.take n)
  if st.offset + n < st.buffer.length then
    (none, { st with offset := st.offset + n, buffer := buf1 }, avail.drop n)
  else
    (some buf1,
     { reading_length := true, offset := 0, length := st.length, buffer := [] },
     avail.drop n)

/-- One call to `Connection::receive_raw` (tcpudp/mod.rs:76-108) against a
transport buffer holding `avail` bytes: in the `AwaitingLength` phase the
length loop (lines 80-88) accumulates up to 4 bytes, and on completion the
length prefix is parsed and a zeroed body buffer of that size is allocated
(lines 89-92) before the body loop runs on the remaining bytes. -/
def recvAvail (st : BufferOffset) (avail : List Byte) :
    Option (List Byte) × BufferOffset × List Byte :=
  if st.reading_length then
    let n := min avail.length (4 - st.offset)
    let len1 := writeAt st.length st.offset (avail.take n)
    if st.offset + n < 4 then
      (none, { st with offset := st.offset + n, length := len1 }, avail.drop n)
    else
      recvBody
        { reading_length := false, offset := 0, length := len1,
          buffer := List.replicate (leU32 len1) (byte 0) }
        (avail.drop n)
  else
    recvBody st avail

/-- Feeding the decoder a sequence of per-call transport buffers: each call
that reports "no complete message yet" is followed by the next call on the
next chunk, exactly as the polling loop re-invokes `receive_raw` on later
ticks once more bytes have arrived. -/
def processChunks (st : BufferOffset) : List (List Byte) → Option (List Byte) × BufferOffset
  | [] => (none, st)
  | c :: cs =>
    match recvAvail st c with
    | (none, st1, _) => processChunks st1 cs
    | (some m, st1, _) => (some m, st1)

/-- Outcome of a single non-blocking `read` call on the stream socket:
either some bytes (at most the requested amount is consumed; `ok []` is a
zero-byte read, i.e. the peer closed) or an I/O error of some kind. -/
inductive ReadEv
  | ok (bs : List Byte)
  | err (k : ErrK)
deriving DecidableEq

/-- The body loop of `Connection::receive_raw` (tcpudp/mod.rs:94-102) run
against a script of individual `read` outcomes: each iteration performs one
read; `Err` propagates via `?` (state retained), a zero-byte read returns a
fresh `WouldBlock` error (line 98-100, state retained), and otherwise the
loop continues.  An exhausted script stands for a read that would find no
data, i.e. `WouldBlock`. -/
def recvEventsBody (st : BufferOffset) : List ReadEv →
    Except ErrK (List Byte) × BufferOffset × List ReadEv
  | [] =>
    if st.offset < st.buffer.length then (.error .wouldBlock, st, [])
    else (.ok st.buffer,
          { reading_length := true, offset := 0, length := st.length, buffer := [] }, [])
  | ev :: rest =>
    if st.offset < st.buffer.length then
      match ev with
      | .err k => (.error k, st, rest)
      | .ok bs =>
        let n := min bs.length (st.buffer.length - st.offset)
        if n = 0 then (.error .wouldBlock, st, rest)
        else recvEventsBody
          { st with offset := st.offset + n,
                    buffer := writeAt st.buffer st.offset (bs.take n) } rest
    else (.ok st.buffer,
          { reading_length := true, offset := 0, length := st.length, buffer := [] },
          ev :: rest)

/-- The length loop of `Connection::receive_raw` (tcpudp/mod.rs:79-93) over a
read-event script; once 4 bytes are in, the length is parsed, the body buffer
allocated, and the body loop continues on the same script. -/
def recvEventsLen (st : BufferOffset) : List ReadEv →
    Except ErrK (List Byte) × BufferOffset × List ReadEv
  | [] =>
    if st.offset < 4 then (.error .wouldBlock, st, [])
    else recvEventsBody
      { reading_length := false, offset := 0, length := st.length,
        buffer := List.replicate (leU32 st.length) (byte 0) } []
  | ev :: rest =>
    if st.offset < 4 then
      match ev with
      | .err k => (.error k, st, rest)
      | .ok bs =>
        let n := min bs.length (4 - st.offset)
        if n = 0 then (.error .wouldBlock, st, rest)
        else recvEventsLen
          { st with offset := st.offset + n,
                    length := writeAt st.length st.offset (bs.take n) } rest
    else recvEventsBody
      { reading_length := false, offset := 0, length := st.length,
        buffer := List.replicate (leU32 st.length) (byte 0) } (ev :: rest)

/-- One call to `Connection::receive_raw` over a script of read outcomes. -/
def recvEvents (st : BufferOffset) (evs : List ReadEv) :
    Except ErrK (List Byte) × BufferOffset × List ReadEv :=
  if st.reading_length then recvEventsLen st evs else recvEventsBody st evs

/-! ## Packets, configuration and addresses (`src/bridge.rs`, `src/main.rs`) -/

/-- `Reliability` (bridge.rs:29-38). -/
inductive Reliability
  | unreliable
  | unreliableSequenced
  | reliable
  | reliableOrdered
deriving DecidableEq

/-- `Packet` (bridge.rs:42-45): a reliability tag plus an opaque byte payload. -/
structure Packet where
  reliability : Reliability
  data : List Byte
deriving DecidableEq

/-- A socket address: an IP (kept as its textual form) and a port. -/
structure SockAddr where
  ip : String
  port : Nat
deriving DecidableEq

/-- `AppConfig` (main.rs:154-160), immutable after load. -/
structure AppConfig where
  external_ip : String
  external_auth_port : Nat
  raknet_ip : String
  raknet_auth_port : Nat
  bind_to : String
deriving DecidableEq

/-- The bytes of a string, as written into a packet. -/
def strBytes (s : String) : List Byte := s.data.map fun c => byte c.toNat

/-- Association-list lookup, standing for `HashMap::get` on the relay
registry and bridge maps. -/
def lookupA {β : Type} : List (SockAddr × β) → SockAddr → Option β
  | [], _ => none
  | (a, b) :: t, k => if a = k then some b else lookupA t k

/-- Association-list insert, standing for `HashMap::insert` (replaces the
value when the key is present). -/
def insertKV {β : Type} : List (SockAddr × β) → SockAddr → β → List (SockAddr × β)
  | [], k, v => [(k, v)]
  | (a, b) :: t, k, v => if a = k then (k, v) :: t else (a, b) :: insertKV t k v

/-- The observable data of a `Shim` constructed by `Shim::new` inside
`scan_packets` (main.rs:52-68): the backend it will relay to, the host it
bound (`config.bind_to`) and the port its listener is actually bound to
(`local_addr().port()`; the kernel chooses it when the requested port is 0). -/
structure ShimInfo where
  connect_addr : SockAddr
  bind_ip : String
  bound_port : Nat
deriving DecidableEq

/-- `Shim::local_addr` (main.rs:71-73) of a newly created relay. -/
def localAddr (s : ShimInfo) : SockAddr := ⟨s.bind_ip, s.bound_port⟩

/-- `ShimCommand` (bridge.rs:48-51): instructs the main function to add a
shim and register the backend address it serves. -/
inductive ShimCommand
  | newShim (connect_addr : SockAddr) (shim : ShimInfo)
deriving DecidableEq

/-! ## Redirect interception (`Bridge::scan_packets`, bridge.rs:125-166) -/

/-- The application-packet gate (bridge.rs:132): payload longer than 8 bytes
and the 2-byte marker 83,5 at offsets 0-1. -/
def gateB (d : List Byte) : Bool :=
  decide (d.length > 8 ∧ dAt d 0 = byte 83 ∧ dAt d 1 = byte 5)

/-- The login-response classification (bridge.rs:133-134): sub-id 0 at byte 3,
byte 1 at offset 8, total length above 413. -/
def loginB (d : List Byte) : Bool :=
  decide (dAt d 3 = byte 0 ∧ dAt d 8 = byte 1 ∧ d.length > 413)

/-- The transfer-to-world classification (bridge.rs:135): sub-id 14 at byte 3. -/
def transferB (d : List Byte) : Bool :=
  decide (dAt d 3 = byte 14)

/-- Interception of a single packet, the loop body of `Bridge::scan_packets`
(bridge.rs:131-163).  `peer` is `raknet_socket.peer_addr()` (the backend this
bridge talks to), `bindP` gives the outcome of `Shim::new`'s bind of the
wildcard address at a requested port (the bound port on success; the kernel
picks an ephemeral port for a request of 0), and `addrs` is the read-only
relay registry.  Out-of-bounds slicing (`&packet.data[loc..]` with a payload
shorter than `loc`) is a Rust panic, modelled as the distinguished error
`panicOOB`; a `u16` read or string write that does not fit the remaining
slice is an `eof` error propagated by `?`.

The overwrite of the embedded IP string is `WriteStr::write_fix` from the
repository's `string.rs`, which is not among the provided sources.
Modelled from the spec: "overwrite the packet's embedded IP field (fixed
offset: 345 for login response, 8 for transfer) with this process's
externally-visible IP" — we write the bytes of `config.external_ip` at that
offset.  Note the port written back (bridge.rs:161-162) is the value `port`
that was just read from the packet, not the created relay's bound port. -/
def scanOne (cfg : AppConfig) (peer : SockAddr) (bindP : Nat → Except ErrK Nat)
    (addrs : List (SockAddr × SockAddr)) (p : Packet) :
    Except ErrK (Packet × List ShimCommand) :=
  let d := p.data
  if gateB d then
    if loginB d || transferB d then
      let portLoc := if loginB d then 411 else 8 + 33
      if d.length < portLoc then .error .panicOOB
      else if d.length < portLoc + 2 then .error .eof
      else
        let port := readU16 d portLoc
        let connectAddr : SockAddr := ⟨peer.ip, port⟩
        let shimRes : Except ErrK (List ShimCommand) :=
          if lookupA addrs connectAddr = none then
            match bindP port with
            | .error e => .error e
            | .ok bp => .ok [ShimCommand.newShim connectAddr ⟨connectAddr, cfg.bind_to, bp⟩]
          else .ok []
        match shimRes with
        | .error e => .error e
        | .ok cmds =>
          let ipLoc := if loginB d then 345 else 8
          let s := strBytes cfg.external_ip
          if d.length < ipLoc then .error .panicOOB
          else if d.length < ipLoc + s.length then .error .eof
          else
            let d1 := writeAt d ipLoc s
            let d2 := writeAt d1 portLoc (le16 port)
            .ok (⟨p.reliability, d2⟩, cmds)
    else .ok (p, [])
  else .ok (p, [])

/-- `Bridge::scan_packets` over the whole decoded batch: packets are rewritten
in place in order, commands are accumulated in order, and the first error
aborts the scan (bridge.rs:129-165). -/
def scanPackets (cfg : AppConfig) (peer : SockAddr) (bindP : Nat → Except ErrK Nat)
    (addrs : List (SockAddr × SockAddr)) :
    List Packet → Except ErrK (List Packet × List ShimCommand)
  | [] => .ok ([], [])
  | p :: ps =>
    match scanOne cfg peer bindP addrs p with
    | .error e => .error e
    | .ok (p1, cmds) =>
      match scanPackets cfg peer bindP addrs ps with
      | .error e => .error e
      | .ok (ps1, cmds1) => .ok (p1 :: ps1, cmds ++ cmds1)

/-! ## `Bridge::server_receive` (bridge.rs:82-108) -/

/-- Outcome of a `recv_from` call on the backend UDP socket: a datagram, or
an error of some kind. -/
inductive UdpEv
  | dgram (bs : List Byte)
  | rerr (k : ErrK)

/-- `Bridge::server_receive`: drains the backend socket in a loop.  A
`WouldBlock` **or `ConnectionReset`** error from `recv_from` ends the loop
with `Ok` of the commands accumulated so far (bridge.rs:90-97); any other
recv error propagates.  Each datagram is handed to the RakNet adapter
(`handle_datagram` lives in the repository's `raknet.rs`, which is not among
the provided sources — it is passed in as the oracle `handle`, per the spec
an "ingest one datagram → zero or more decoded packets" interface), the
decoded packets are scanned, and the rewritten batch is sent to the client
(`send_packets`, whose outcome is the oracle `sendC`); errors from any of
these propagate via `?`.  An exhausted event script stands for a
`WouldBlock` from `recv_from`. -/
def serverReceive (handle : List Byte → Except ErrK (List Packet))
    (sendC : List Packet → Except ErrK Unit)
    (cfg : AppConfig) (peer : SockAddr) (bindP : Nat → Except ErrK Nat)
    (addrs : List (SockAddr × SockAddr)) :
    List UdpEv → Except ErrK (List ShimCommand)
  | [] => .ok []
  | .rerr k :: _ =>
    if k = .wouldBlock ∨ k = .connReset then .ok [] else .error k
  | .dgram bs :: rest =>
    match handle bs with
    | .error e => .error e
    | .ok pkts =>
      match scanPackets cfg peer bindP addrs pkts with
      | .error e => .error e
      | .ok (pkts1, cmds) =>
        match sendC pkts1 with
        | .error e => .error e
        | .ok _ =>
          match serverReceive handle sendC cfg peer bindP addrs rest with
          | .error e => .error e
          | .ok cmds1 => .ok (cmds ++ cmds1)

/-! ## Shim stepping (`src/main.rs`) -/

/-- Log lines the stepping code emits, by kind: the plain reset notice of
main.rs:94, the error log of main.rs:96, the `dbg!` of main.rs:125 and the
forward-error log of main.rs:116-117. -/
inductive LogEntry
  | resetNotice
  | stepError (k : ErrK)
  | clientErrDbg (k : ErrK)
  | clientFwdErr (k : ErrK)
deriving DecidableEq

/-- The state of one `Shim` (main.rs:40-48): the backend address it relays
to, the port its listener is bound to, and the map from client address to
bridge.  The bridge representation is abstract (`α`). -/
structure ShimState (α : Type) where
  connect_addr : SockAddr
  bound_port : Nat
  bridges : List (SockAddr × α)

/-- The `bridges.retain` pass of `Shim::step` (main.rs:86-100): every bridge
is given to `server_receive` (whose per-bridge outcome and updated state is
the oracle `sout`); on `Ok` the bridge is kept and its commands appended, on
any error it is removed — with a plain notice for `ConnectionReset`, silence
for `ConnectionAborted`, and the error log otherwise. -/
def retainServer {α : Type} (sout : α → Except ErrK (List ShimCommand) × α) :
    List (SockAddr × α) → List (SockAddr × α) × List ShimCommand × List LogEntry
  | [] => ([], [], [])
  | (a, b) :: rest =>
    match sout b with
    | (.ok cmds, b1) =>
      let r := retainServer sout rest
      ((a, b1) :: r.1, cmds ++ r.2.1, r.2.2)
    | (.error e, _) =>
      let r := retainServer sout rest
      (r.1, r.2.1,
       (if e = .connReset then [LogEntry.resetNotice]
        else if e = .connAborted then [] else [LogEntry.stepError e]) ++ r.2.2)

/-- The server half of `Shim::step` (main.rs:80-102) acting on the shim
state: only the bridge map changes; the listener and backend address are
untouched. -/
def stepServer {α : Type} (sout : α → Except ErrK (List ShimCommand) × α)
    (sh : ShimState α) : ShimState α × List ShimCommand × List LogEntry :=
  let r := retainServer sout sh.bridges
  ({ sh with bridges := r.1 }, r.2.1, r.2.2)

/-- Outcome of one iteration of the accept loop (main.rs:105-110): either
`accept` returned a new client connection together with the result of
wrapping it (`Connection::from` plus `Shim::create_bridge`, main.rs:106-108
and 134-144 — the bind/connect/handshake of the backend UDP socket), or
`accept` itself failed with some error kind. -/
inductive AcceptEv (α : Type)
  | conn (addr : SockAddr) (mk : Except ErrK α)
  | aerr (k : ErrK)

/-- The `while let Ok(..) = self.tcp_listener.accept()` loop of
`Shim::client_receive` (main.rs:105-110): an accept error of **any** kind
merely ends the loop (the error value is discarded); a failure while
wrapping an accepted connection propagates via `?`; a successful wrap is
inserted into the bridge map keyed by the client address.  An exhausted
script stands for `accept` returning `WouldBlock`. -/
def acceptLoop {α : Type} :
    List (AcceptEv α) → List (SockAddr × α) → Except ErrK (List (SockAddr × α))
  | [], bs => .ok bs
  | .aerr _ :: _, bs => .ok bs
  | .conn addr mk :: rest, bs =>
    match mk with
    | .error e => .error e
    | .ok b => acceptLoop rest (insertKV bs addr b)

/-- The `bridges.retain` pass of `Shim::client_receive` (main.rs:112-129):
each bridge pulls at most one framed message from its client (`coutcome`,
returning the result and the updated decoder state); on success the message
is forwarded to the backend (`fout`; a forward error is only logged); a
`ConnectionReset` removes the bridge; any other receive error (including a
non-`WouldBlock` one, which is `dbg!`-logged) keeps it. -/
def clientRetain {α : Type} (coutcome : α → Except ErrK (List Byte) × α)
    (fout : α → List Byte → Except ErrK Unit × α) :
    List (SockAddr × α) → List (SockAddr × α) × List LogEntry
  | [] => ([], [])
  | (a, b) :: rest =>
    let r := clientRetain coutcome fout rest
    match coutcome b with
    | (.ok msg, b1) =>
      match fout b1 msg with
      | (.ok _, b2) => ((a, b2) :: r.1, r.2)
      | (.error e, b2) => ((a, b2) :: r.1, LogEntry.clientFwdErr e :: r.2)
    | (.error e, b1) =>
      if e = .connReset then r
      else if e = .wouldBlock then ((a, b1) :: r.1, r.2)
      else ((a, b1) :: r.1, LogEntry.clientErrDbg e :: r.2)

/-- `Shim::client_receive` (main.rs:104-132): the accept loop, then the
client-side retain pass.  Only errors from wrapping an accepted connection
can escape. -/
def clientReceiveM {α : Type} (coutcome : α → Except ErrK (List Byte) × α)
    (fout : α → List Byte → Except ErrK Unit × α)
    (evs : List (AcceptEv α)) (bs : List (SockAddr × α)) :
    Except ErrK (List (SockAddr × α) × List LogEntry) :=
  match acceptLoop evs bs with
  | .error e => .error e
  | .ok bs1 => .ok (clientRetain coutcome fout bs1)

/-- `Shim::step` (main.rs:80-102): `client_receive()?` followed by the
server-side retain pass. -/
def stepM {α : Type} (coutcome : α → Except ErrK (List Byte) × α)
    (fout : α → List Byte → Except ErrK Unit × α)
    (sout : α → Except ErrK (List ShimCommand) × α)
    (evs : List (AcceptEv α)) (sh : ShimState α) :
    Except ErrK (ShimState α × List ShimCommand × List LogEntry) :=
  match clientReceiveM coutcome fout evs sh.bridges with
  | .error e => .error e
  | .ok (bs1, logs1) =>
    let r := stepServer sout { sh with bridges := bs1 }
    .ok (r.1, r.2.1, logs1 ++ r.2.2)

/-! ## Orchestrator (`main`, main.rs:177-215) -/

/-- `Shim::new` (main.rs:52-68) as seen from `main`: `bindRes` is the outcome
of binding the listener at `(config.bind_to, port)` — the bound port on
success.  A bind failure propagates via `?`. -/
def shimNew {α : Type} (bindRes : Except ErrK Nat) (ca : SockAddr) :
    Except ErrK (ShimState α) :=
  match bindRes with
  | .error e => .error e
  | .ok p => .ok ⟨ca, p, []⟩

/-- The startup of `main` (main.rs:194-197): create the well-known auth shim;
a bind failure propagates out of `main` and the process terminates. -/
def mainStartup {α : Type} (bindRes : Except ErrK Nat) (ca : SockAddr) :
    Except ErrK (List (ShimState α)) :=
  match shimNew (α := α) bindRes ca with
  | .error e => .error e
  | .ok sh => .ok [sh]

/-- The `for shim in shims { shim.step(&mut cmds, &addrs)? }` pass of one
orchestrator tick (main.rs:202-204): the shims are stepped in order, the
commands are concatenated, and the first error propagates out of `main`
(terminating the process). -/
def mainTickShims {α : Type}
    (step1 : ShimState α → Except ErrK (ShimState α × List ShimCommand × List LogEntry)) :
    List (ShimState α) → Except ErrK (List (ShimState α) × List ShimCommand)
  | [] => .ok ([], [])
  | sh :: rest =>
    match step1 sh with
    | .error e => .error e
    | .ok (sh1, cmds, _) =>
      match mainTickShims step1 rest with
      | .error e => .error e
      | .ok (rest1, cmds1) => .ok (sh1 :: rest1, cmds ++ cmds1)

/-- Applying one `ShimCommand` (main.rs:205-212): register backend address →
relay local address and append the new shim. -/
def applyCmd (addrs : List (SockAddr × SockAddr)) (shims : List ShimInfo) :
    ShimCommand → List (SockAddr × SockAddr) × List ShimInfo
  | .newShim ca shim => (insertKV addrs ca (localAddr shim), shims ++ [shim])

/-! ## Concrete instances used by witnesses and counterexamples -/

/-- A concrete configuration. -/
def cfgC : AppConfig := ⟨"10.0.0.1", 2000, "10.0.0.5", 1001, "0.0.0.0"⟩

/-- A concrete backend peer address. -/
def peerC : SockAddr := ⟨"10.0.0.5", 1001⟩

/-- A concrete bind oracle: binding port 0 yields the kernel-chosen ephemeral
port 5000; binding a fixed port succeeds at that port. -/
def bindPC : Nat → Except ErrK Nat := fun p => .ok (if p = 0 then 5000 else p)

/-- A concrete 43-byte transfer-to-world packet payload whose embedded port
field (offset 41) is 0. -/
def dT0 : List Byte :=
  writeAt (List.replicate 43 (byte 0)) 0 [byte 83, byte 5, byte 0, byte 14]

/-- A concrete transfer-to-world packet payload with embedded port 7777. -/
def dT1 : List Byte := writeAt dT0 41 (le16 7777)

/-- The transfer packet with port 0, as a `Packet`. -/
def pT0 : Packet := ⟨Reliability.reliableOrdered, dT0⟩

/-- The transfer packet with port 7777, as a `Packet`. -/
def pT1 : Packet := ⟨Reliability.reliableOrdered, dT1⟩

/-- A concrete non-matching packet (wrong marker byte). -/
def pPlain : Packet := ⟨Reliability.reliableOrdered, List.replicate 20 (byte 7)⟩

/-! ## Helper lemmas -/

theorem leU32_leBytes4 {n : Nat} (h : n < 4294967296) : leU32 (leBytes4 n) = n := by
  simp only [leU32, leBytes4, byte]
  omega

theorem writeAt_replicate_full {n : Nat} (z : Byte) (p : List Byte) (h : p.length = n) :
    writeAt (List.replicate n z) 0 p = p := by
  simp [writeAt, h]

theorem length_writeAt {buf new : List Byte} {off : Nat}
    (h : off + new.length ≤ buf.length) :
    (writeAt buf off new).length = buf.length := by
  simp [writeAt]
  omega

theorem writeAt_nil (buf : List Byte) (off : Nat) : writeAt buf off [] = buf := by
  simp [writeAt]

/-- Stage lemma: a `receive_raw` call in the length phase whose transport
buffer completes the 4 length bytes parses the length and proceeds to the
body loop on the remaining bytes. -/
theorem recvAvail_reading (st : BufferOffset) (avail : List Byte)
    (hr : st.reading_length = true) (hav : 4 ≤ st.offset + avail.length) :
    recvAvail st avail =
      recvBody { reading_length := false, offset := 0,
                 length := writeAt st.length st.offset (avail.take (4 - st.offset)),
                 buffer := List.replicate
                   (leU32 (writeAt st.length st.offset (avail.take (4 - st.offset)))) (byte 0) }
        (avail.drop (4 - st.offset)) := by
  have hmin : min avail.length (4 - st.offset) = 4 - st.offset := by omega
  unfold recvAvail
  rw [hr, if_pos rfl, hmin, if_neg (by omega)]

/-- Stage lemma: a call in the length phase whose transport buffer runs dry
before the 4 length bytes are in consumes everything, keeps its progress and
reports "no complete message yet". -/
theorem recvAvail_reading_blocked (st : BufferOffset) (avail : List Byte)
    (hr : st.reading_length = true) (hav : st.offset + avail.length < 4) :
    recvAvail st avail =
      (none,
       { st with
           offset := st.offset + avail.length
           length := writeAt st.length st.offset avail },
       []) := by
  have hmin : min avail.length (4 - st.offset) = avail.length := by omega
  unfold recvAvail
  rw [hr, if_pos rfl, hmin, if_pos (by omega)]
  simp

/-- Stage lemma: the length phase is skipped when the state is already in the
body phase. -/
theorem recvAvail_body (st : BufferOffset) (avail : List Byte)
    (hr : st.reading_length = false) :
    recvAvail st avail = recvBody st avail := by
  unfold recvAvail
  rw [hr, if_neg (by simp)]

/-- Stage lemma: a body loop whose transport buffer fills the body completes
the message, resets the state and leaves the extra bytes in the buffer. -/
theorem recvBody_done (st : BufferOffset) (avail : List Byte)
    (h : st.buffer.length ≤ st.offset + avail.length) :
    recvBody st avail =
      (some (writeAt st.buffer st.offset (avail.take (st.buffer.length - st.offset))),
       { reading_length := true, offset := 0, length := st.length, buffer := [] },
       avail.drop (st.buffer.length - st.offset)) := by
  have hmin : min avail.length (st.buffer.length - st.offset) = st.buffer.length - st.offset := by
    omega
  unfold recvBody
  rw [hmin, if_neg (by omega)]

/-- Stage lemma: a body loop whose transport buffer runs dry first consumes
everything, keeps its progress and reports "no complete message yet". -/
theorem recvBody_blocked (st : BufferOffset) (avail : List Byte)
    (h : st.offset + avail.length < st.buffer.length) :
    recvBody st avail =
      (none,
       { st with
           offset := st.offset + avail.length
           buffer := writeAt st.buffer st.offset avail },
       []) := by
  have hmin : min avail.length (st.buffer.length - st.offset) = avail.length := by omega
  unfold recvBody
  rw [hmin, if_pos (by omega)]
  simp

theorem writeAt_zero (L new : List Byte) : writeAt L 0 new = new ++ L.drop new.length := by
  simp [writeAt]

theorem writeAt_cons_succ (c : Byte) (L : List Byte) (o : Nat) (new : List Byte) :
    writeAt (c :: L) (o + 1) new = c :: writeAt L o new := by
  simp only [writeAt, List.take_succ_cons]
  rw [show o + 1 + new.length = (o + new.length) + 1 from by omega, List.drop_succ_cons]
  simp

theorem writeAt_nil_left (o : Nat) (new : List Byte) : writeAt [] o new = new := by
  simp [writeAt]

/-- Writing `x ++ y` at `o` is writing `x` at `o` and then `y` right after it. -/
theorem writeAt_append (L : List Byte) (o : Nat) (x y : List Byte) :
    writeAt L o (x ++ y) = writeAt (writeAt L o x) (o + x.length) y := by
  induction o generalizing L with
  | zero =>
    simp only [writeAt, Nat.zero_add, List.take_zero, List.nil_append, List.length_append,
      List.take_left, List.drop_append, List.drop_drop]
  | succ o ih =>
    cases L with
    | nil =>
      rw [writeAt_nil_left, writeAt_nil_left, writeAt]
      rw [List.take_of_length_le (by omega), List.drop_eq_nil_of_le (by omega)]
      simp
    | cons c L =>
      rw [writeAt_cons_succ, writeAt_cons_succ, ih,
        show o + 1 + x.length = (o + x.length) + 1 from by omega, writeAt_cons_succ]

/-- Case split for one run of the body loop against a buffered transport. -/
theorem recvBody_cases (st : BufferOffset) (avail : List Byte) :
    (st.offset + avail.length < st.buffer.length ∧
      recvBody st avail =
        (none,
         { st with
             offset := st.offset + avail.length
             buffer := writeAt st.buffer st.offset avail },
         [])) ∨
    (st.buffer.length ≤ st.offset + avail.length ∧
      recvBody st avail =
        (some (writeAt st.buffer st.offset (avail.take (st.buffer.length - st.offset))),
         { reading_length := true, offset := 0, length := st.length, buffer := [] },
         avail.drop (st.buffer.length - st.offset))) := by
  by_cases h : st.offset + avail.length < st.buffer.length
  · exact Or.inl ⟨h, recvBody_blocked st avail h⟩
  · exact Or.inr ⟨by omega, recvBody_done st avail (by omega)⟩

/-- Splitting the transport buffer of one body-loop run: running on `a ++ b`
is running on `a` and, if that blocks, continuing on `b` from the saved state. -/
theorem recvBody_append_blocked (st : BufferOffset) (a b : List Byte)
    (st1 : BufferOffset) (l : List Byte) (h : recvBody st a = (none, st1, l)) :
    recvBody st (a ++ b) = recvBody st1 b := by
  rcases recvBody_cases st a with ⟨hc, heq⟩ | ⟨hc, heq⟩
  · rw [heq] at h
    have hI : st1 =
        { st with
            offset := st.offset + a.length
            buffer := writeAt st.buffer st.offset a } := by
      have := congrArg (fun t => t.2.1) h
      simpa using this.symm
    have hro : st1.offset = st.offset + a.length := by rw [hI]
    have hrbuf : st1.buffer = writeAt st.buffer st.offset a := by rw [hI]
    have hrlen : st1.length = st.length := by rw [hI]
    have hrr : st1.reading_length = st.reading_length := by rw [hI]
    have hlen1 : st1.buffer.length = st.buffer.length := by
      rw [hrbuf]; exact length_writeAt (by omega)
    by_cases hall : st.offset + a.length + b.length < st.buffer.length
    · rw [recvBody_blocked st (a ++ b) (by rw [List.length_append]; omega),
          recvBody_blocked st1 b (by rw [hro, hlen1]; omega)]
      rw [hrr, hrlen, hro, hrbuf, List.length_append, writeAt_append, Nat.add_assoc]
    · rw [recvBody_done st (a ++ b) (by rw [List.length_append]; omega),
          recvBody_done st1 b (by rw [hro, hlen1]; omega)]
      rw [hrlen, hlen1, hro, hrbuf]
      rw [show st.buffer.length - st.offset =
            a.length + (st.buffer.length - st.offset - a.length) from by omega,
          List.take_append, List.drop_append, writeAt_append, Nat.sub_sub]
  · rw [heq] at h
    simp [Prod.ext_iff] at h

/-- Splitting the transport buffer of one body-loop run when the first part
already completes the message: the second part is left untouched. -/
theorem recvBody_append_done (st : BufferOffset) (a b : List Byte)
    (m : List Byte) (st1 : BufferOffset) (l : List Byte)
    (h : recvBody st a = (some m, st1, l)) :
    recvBody st (a ++ b) = (some m, st1, l ++ b) := by
  rcases recvBody_cases st a with ⟨hc, heq⟩ | ⟨hc, heq⟩
  · rw [heq] at h; simp [Prod.ext_iff] at h
  · have h2 := heq.symm.trans h
    have hm : writeAt st.buffer st.offset (a.take (st.buffer.length - st.offset)) = m := by
      have := congrArg (fun t => t.1) h2; simpa using this
    have hst : ({ reading_length := true
                  offset := 0
                  length := st.length
                  buffer := [] } : BufferOffset) = st1 := congrArg (fun t => t.2.1) h2
    have hl : a.drop (st.buffer.length - st.offset) = l := congrArg (fun t => t.2.2) h2
    rw [recvBody_done st (a ++ b) (by rw [List.length_append]; omega),
        List.take_append_of_le_length (by omega), List.drop_append_of_le_length (by omega),
        hm, hst, hl]

/-- Splitting the transport buffer of one full `receive_raw` call: if the
first part blocks, the call on the concatenation behaves like continuing from
the saved state on the second part. -/
theorem recvAvail_append_none (st : BufferOffset) (a b : List Byte)
    (st1 : BufferOffset) (l : List Byte) (h : recvAvail st a = (none, st1, l)) :
    recvAvail st (a ++ b) = recvAvail st1 b := by
  cases hr : st.reading_length with
  | false =>
    rw [recvAvail_body st a hr] at h
    rcases recvBody_cases st a with ⟨hc, heq⟩ | ⟨hc, heq⟩
    · have h2 := heq.symm.trans h
      have hI : st1 =
          { st with
              offset := st.offset + a.length
              buffer := writeAt st.buffer st.offset a } := by
        have := congrArg (fun t => t.2.1) h2; simpa using this.symm
      rw [recvAvail_body st (a ++ b) hr, recvBody_append_blocked st a b st1 l h,
          recvAvail_body st1 b (by rw [hI]; exact hr)]
    · rw [heq] at h; simp [Prod.ext_iff] at h
  | true =>
    by_cases h1 : st.offset + a.length < 4
    · rw [recvAvail_reading_blocked st a hr h1] at h
      have hI : st1 =
          { st with
              offset := st.offset + a.length
              length := writeAt st.length st.offset a } := by
        have := congrArg (fun t => t.2.1) h; simpa using this.symm
      have hro : st1.offset = st.offset + a.length := by rw [hI]
      have hrlen : st1.length = writeAt st.length st.offset a := by rw [hI]
      have hrr : st1.reading_length = true := by rw [hI]; exact hr
      by_cases h2b : st.offset + a.length + b.length < 4
      · rw [recvAvail_reading_blocked st (a ++ b) hr (by rw [List.length_append]; omega),
            recvAvail_reading_blocked st1 b hrr (by rw [hro]; omega)]
        rw [hI]
        simp [List.length_append, writeAt_append, Nat.add_assoc]
      · rw [recvAvail_reading st (a ++ b) hr (by rw [List.length_append]; omega),
            recvAvail_reading st1 b hrr (by rw [hro]; omega)]
        rw [hro, hrlen]
        rw [show 4 - st.offset = a.length + (4 - st.offset - a.length) from by omega,
            List.take_append, List.drop_append, writeAt_append, Nat.sub_sub]
    · rw [recvAvail_reading st a hr (by omega)] at h
      rw [recvAvail_reading st (a ++ b) hr (by rw [List.length_append]; omega),
          List.take_append_of_le_length (by omega), List.drop_append_of_le_length (by omega),
          recvBody_append_blocked _ (a.drop (4 - st.offset)) b st1 l h]
      rcases recvBody_cases _ (a.drop (4 - st.offset)) with ⟨hc, heq⟩ | ⟨hc, heq⟩
      · have h2 := heq.symm.trans h
        have hrr : st1.reading_length = false := by
          have := congrArg (fun t => (t.2.1).reading_length) h2
          simpa using this.symm
        rw [recvAvail_body st1 b hrr]
      · rw [heq] at h; simp [Prod.ext_iff] at h

/-- Splitting the transport buffer of one full `receive_raw` call when the
first part already completes a message: the second part stays buffered. -/
theorem recvAvail_append_some (st : BufferOffset) (a b : List Byte)
    (m : List Byte) (st1 : BufferOffset) (l : List Byte)
    (h : recvAvail st a = (some m, st1, l)) :
    recvAvail st (a ++ b) = (some m, st1, l ++ b) := by
  cases hr : st.reading_length with
  | false =>
    rw [recvAvail_body st a hr] at h
    rw [recvAvail_body st (a ++ b) hr, recvBody_append_done st a b m st1 l h]
  | true =>
    by_cases h1 : st.offset + a.length < 4
    · rw [recvAvail_reading_blocked st a hr h1] at h; simp [Prod.ext_iff] at h
    · rw [recvAvail_reading st a hr (by omega)] at h
      rw [recvAvail_reading st (a ++ b) hr (by rw [List.length_append]; omega),
          List.take_append_of_le_length (by omega), List.drop_append_of_le_length (by omega),
          recvBody_append_done _ (a.drop (4 - st.offset)) b m st1 l h]

/-- Shape of a blocked body-loop result: the phase flag is unchanged and the
body is still incomplete. -/
theorem recvBody_none_inv (st : BufferOffset) (a : List Byte)
    (st1 : BufferOffset) (l : List Byte) (h : recvBody st a = (none, st1, l)) :
    st1.reading_length = st.reading_length ∧ st1.offset < st1.buffer.length := by
  rcases recvBody_cases st a with ⟨hc, heq⟩ | ⟨hc, heq⟩
  · have h2 := heq.symm.trans h
    have hI : ({ st with
        offset := st.offset + a.length
        buffer := writeAt st.buffer st.offset a } : BufferOffset) = st1 := by
      have := congrArg (fun t => t.2.1) h2; simpa using this
    refine ⟨by rw [← hI], ?_⟩
    rw [← hI]
    show st.offset + a.length < (writeAt st.buffer st.offset a).length
    rw [length_writeAt (by omega)]
    exact hc
  · rw [heq] at h; simp [Prod.ext_iff] at h

/-- Shape of a "no complete message yet" result of `receive_raw`: the saved
state is genuinely mid-message. -/
theorem recvAvail_none_inv (st : BufferOffset) (a : List Byte)
    (st1 : BufferOffset) (l : List Byte) (h : recvAvail st a = (none, st1, l)) :
    (st1.reading_length = true ∧ st1.offset < 4) ∨
    (st1.reading_length = false ∧ st1.offset < st1.buffer.length) := by
  cases hr : st.reading_length with
  | false =>
    rw [recvAvail_body st a hr] at h
    have hinv := recvBody_none_inv st a st1 l h
    exact Or.inr ⟨hinv.1.trans hr, hinv.2⟩
  | true =>
    by_cases h1 : st.offset + a.length < 4
    · rw [recvAvail_reading_blocked st a hr h1] at h
      have hI : st1 =
          { st with
              offset := st.offset + a.length
              length := writeAt st.length st.offset a } := by
        have := congrArg (fun t => t.2.1) h; simpa using this.symm
      refine Or.inl ⟨by rw [hI]; exact hr, ?_⟩
      rw [hI]
      exact h1
    · rw [recvAvail_reading st a hr (by omega)] at h
      have hinv := recvBody_none_inv _ _ st1 l h
      exact Or.inr ⟨hinv.1, hinv.2⟩

/-- A state saved by a blocked body loop yields "no complete message yet" and
is unchanged when polled with an empty transport buffer. -/
theorem recvBody_blocked_stuck (st2 : BufferOffset) (hrr : st2.reading_length = false)
    (hlt : st2.offset < st2.buffer.length) :
    recvAvail st2 [] = (none, st2, []) := by
  rw [recvAvail_body st2 [] hrr, recvBody_blocked st2 [] (by simpa using hlt)]
  simp [writeAt_nil]

/-- A state saved by a blocked length loop yields "no complete message yet"
and is unchanged when polled with an empty transport buffer. -/
theorem recvLen_blocked_stuck (st2 : BufferOffset) (hrr : st2.reading_length = true)
    (hlt : st2.offset < 4) :
    recvAvail st2 [] = (none, st2, []) := by
  rw [recvAvail_reading_blocked st2 [] hrr (by simpa using hlt)]
  simp [writeAt_nil]

/-- Any state saved by a "no complete message yet" call is idempotent under
polling with no data. -/
theorem recvAvail_stuck_of_none (st : BufferOffset) (a : List Byte)
    (st1 : BufferOffset) (l : List Byte) (h : recvAvail st a = (none, st1, l)) :
    recvAvail st1 [] = (none, st1, []) := by
  rcases recvAvail_none_inv st a st1 l h with ⟨hr, hlt⟩ | ⟨hr, hlt⟩
  · exact recvLen_blocked_stuck st1 hr hlt
  · exact recvBody_blocked_stuck st1 hr hlt

/-- Chunked feeding agrees with single-shot feeding: if the wire bytes decode
in one call to a message with nothing left over, feeding any chunking of them
across separate calls reaches the same message and the same final state. -/
theorem processChunks_eq_of_single (cs : List (List Byte)) :
    ∀ (st : BufferOffset) (m : List Byte) (st1 : BufferOffset),
      recvAvail st [] = (none, st, []) →
      recvAvail st cs.flatten = (some m, st1, []) →
      processChunks st cs = (some m, st1) := by
  induction cs with
  | nil =>
    intro st m st1 h0 h
    rw [List.flatten_nil] at h
    rw [h0] at h
    simp [Prod.ext_iff] at h
  | cons c cs ih =>
    intro st m st1 h0 h
    rw [List.flatten_cons] at h
    rcases hshape : recvAvail st c with ⟨r, st2, l2⟩
    cases r with
    | none =>
      rw [recvAvail_append_none st c cs.flatten st2 l2 hshape] at h
      have h0n := recvAvail_stuck_of_none st c st2 l2 hshape
      have hrec := ih st2 m st1 h0n h
      simp only [processChunks]
      rw [hshape]
      exact hrec
    | some m2 =>
      rw [recvAvail_append_some st c cs.flatten m2 st2 l2 hshape] at h
      have hm : m2 = m := by have := congrArg (fun t => t.1) h; simpa using this
      have hst : st2 = st1 := by have := congrArg (fun t => t.2.1) h; simpa using this
      simp only [processChunks]
      rw [hshape]
      simp [hm, hst]

/-- C3 — Framing round-trip: for every payload whose length is representable
in the 32-bit length field, `send_raw` produces exactly `length + 4` wire
bytes, and `receive_raw` over a lossless in-order transport decodes the
original payload back while consuming exactly those `length + 4` bytes
(whatever follows is left in the transport buffer untouched). -/
theorem framing_roundtrip (p rest : List Byte) (h : p.length < 4294967296) :
    (sendRaw p).length = p.length + 4 ∧
    recvAvail initBuf (sendRaw p ++ rest) =
      (some p, ⟨true, 0, leBytes4 p.length, []⟩, rest) := by
  constructor
  · simp [sendRaw, leBytes4]
  · have hlen4 : (leBytes4 p.length).length = 4 := by simp [leBytes4]
    have havail : (sendRaw p ++ rest) = leBytes4 p.length ++ (p ++ rest) := by
      simp [sendRaw]
    have htake : (leBytes4 p.length ++ (p ++ rest)).take 4 = leBytes4 p.length := by
      rw [← hlen4]; exact List.take_left _ _
    have hdrop : (leBytes4 p.length ++ (p ++ rest)).drop 4 = p ++ rest := by
      rw [← hlen4]; exact List.drop_left _ _
    rw [havail, recvAvail_reading _ _ rfl (by simp [initBuf, hlen4])]
    simp only [initBuf, Nat.sub_zero, htake, hdrop]
    rw [writeAt_replicate_full _ _ hlen4, leU32_leBytes4 h]
    rw [recvBody_done _ _ (by simp)]
    simp only [List.length_replicate, Nat.sub_zero, List.take_left, List.drop_left]
    rw [writeAt_replicate_full _ _ rfl]

/-- C3 witness: the round-trip at the concrete payload `[7, 8]` with trailing
wire byte `9`. -/
theorem framing_roundtrip_witness :
    ([byte 7, byte 8] : List Byte).length < 4294967296 ∧
    ((sendRaw [byte 7, byte 8]).length = [byte 7, byte 8].length + 4 ∧
     recvAvail initBuf (sendRaw [byte 7, byte 8] ++ [byte 9]) =
       (some [byte 7, byte 8], ⟨true, 0, leBytes4 [byte 7, byte 8].length, []⟩, [byte 9])) :=
  ⟨by decide, framing_roundtrip [byte 7, byte 8] [byte 9] (by decide)⟩

/-- C4 — Resumability: for every framed message and every partition of its
wire bytes into chunks, feeding the chunks to `receive_raw` across separate
calls yields the same decoded message (and the same final decoder state) as
feeding all bytes in a single call; the decoder state is preserved exactly
across the intermediate calls that report "no complete message yet", so no
partial progress is lost. -/
theorem decoder_resumable (p : List Byte) (cs : List (List Byte))
    (h : p.length < 4294967296) (hcs : cs.flatten = sendRaw p) :
    recvAvail initBuf (sendRaw p) = (some p, ⟨true, 0, leBytes4 p.length, []⟩, []) ∧
    processChunks initBuf cs = (some p, ⟨true, 0, leBytes4 p.length, []⟩) := by
  have hsingle := (framing_roundtrip p [] h).2
  rw [List.append_nil] at hsingle
  refine ⟨hsingle, ?_⟩
  apply processChunks_eq_of_single
  · rfl
  · rw [hcs]
    exact hsingle

/-- C4 witness: the wire bytes of payload `[7, 8]` fed one byte per call. -/
theorem decoder_resumable_witness :
    ([byte 7, byte 8] : List Byte).length < 4294967296 ∧
    ([[byte 2], [byte 0], [byte 0], [byte 0], [byte 7], [byte 8]] :
      List (List Byte)).flatten = sendRaw [byte 7, byte 8] ∧
    (recvAvail initBuf (sendRaw [byte 7, byte 8]) =
       (some [byte 7, byte 8], ⟨true, 0, leBytes4 [byte 7, byte 8].length, []⟩, []) ∧
     processChunks initBuf [[byte 2], [byte 0], [byte 0], [byte 0], [byte 7], [byte 8]] =
       (some [byte 7, byte 8], ⟨true, 0, leBytes4 [byte 7, byte 8].length, []⟩)) :=
  ⟨by decide, by decide,
   decoder_resumable [byte 7, byte 8] [[byte 2], [byte 0], [byte 0], [byte 0], [byte 7], [byte 8]]
     (by decide) (by decide)⟩

/-- The body loop treats a zero-byte read exactly like a `WouldBlock` error:
the call's result and saved state agree whichever of the two the transport
produces at the same point of the script. -/
theorem recvEventsBody_zero_read (pre : List ReadEv) :
    ∀ (st : BufferOffset) (post : List ReadEv),
      ((recvEventsBody st (pre ++ ReadEv.ok [] :: post)).1,
       (recvEventsBody st (pre ++ ReadEv.ok [] :: post)).2.1) =
      ((recvEventsBody st (pre ++ ReadEv.err ErrK.wouldBlock :: post)).1,
       (recvEventsBody st (pre ++ ReadEv.err ErrK.wouldBlock :: post)).2.1) := by
  induction pre with
  | nil =>
    intro st post
    by_cases hlt : st.offset < st.buffer.length
    · simp [recvEventsBody, if_pos hlt]
    · simp [recvEventsBody, if_neg hlt]
  | cons e pre ih =>
    intro st post
    by_cases hlt : st.offset < st.buffer.length
    · cases e with
      | err k => simp [recvEventsBody, if_pos hlt]
      | ok bs =>
        simp only [List.cons_append, recvEventsBody, if_pos hlt]
        by_cases hn : min bs.length (st.buffer.length - st.offset) = 0
        · rw [if_pos hn, if_pos hn]
        · rw [if_neg hn, if_neg hn]
          exact ih _ post
    · simp [recvEventsBody, if_neg hlt]

/-- The length loop treats a zero-byte read exactly like a `WouldBlock`
error, and hands the property on to the body loop once the length is in. -/
theorem recvEventsLen_zero_read (pre : List ReadEv) :
    ∀ (st : BufferOffset) (post : List ReadEv),
      ((recvEventsLen st (pre ++ ReadEv.ok [] :: post)).1,
       (recvEventsLen st (pre ++ ReadEv.ok [] :: post)).2.1) =
      ((recvEventsLen st (pre ++ ReadEv.err ErrK.wouldBlock :: post)).1,
       (recvEventsLen st (pre ++ ReadEv.err ErrK.wouldBlock :: post)).2.1) := by
  induction pre with
  | nil =>
    intro st post
    by_cases hlt : st.offset < 4
    · simp [recvEventsLen, if_pos hlt]
    · simp only [List.nil_append, recvEventsLen, if_neg hlt]
      exact recvEventsBody_zero_read [] _ post
  | cons e pre ih =>
    intro st post
    by_cases hlt : st.offset < 4
    · cases e with
      | err k => simp [recvEventsLen, if_pos hlt]
      | ok bs =>
        simp only [List.cons_append, recvEventsLen, if_pos hlt]
        by_cases hn : min bs.length (4 - st.offset) = 0
        · rw [if_pos hn, if_pos hn]
        · rw [if_neg hn, if_neg hn]
          exact ih _ post
    · simp only [List.cons_append, recvEventsLen, if_neg hlt]
      exact recvEventsBody_zero_read (e :: pre) _ post

/-- C9 — A transport read returning zero bytes is surfaced exactly like the
no-data-yet (`WouldBlock`) condition: wherever in a `receive_raw` call's read
script the transport produces a zero-byte read instead of a `WouldBlock`
error, the call's returned value and its saved decoder state (hence all
partial progress) are identical, and no distinct peer-closed signal exists.
(The scripts themselves differ only in the already-consumed distinguishing
event, so the returned value and state are the call's observables.) -/
theorem zero_read_like_would_block (st : BufferOffset) (pre post : List ReadEv) :
    ((recvEvents st (pre ++ ReadEv.ok [] :: post)).1,
     (recvEvents st (pre ++ ReadEv.ok [] :: post)).2.1) =
    ((recvEvents st (pre ++ ReadEv.err ErrK.wouldBlock :: post)).1,
     (recvEvents st (pre ++ ReadEv.err ErrK.wouldBlock :: post)).2.1) := by
  unfold recvEvents
  by_cases hr : st.reading_length
  · rw [if_pos hr, if_pos hr]
    exact recvEventsLen_zero_read pre st post
  · rw [if_neg hr, if_neg hr]
    exact recvEventsBody_zero_read pre st post

/-- Index access through `dAt` agrees with `getElem` inside bounds. -/
theorem dAt_eq_getElem (d : List Byte) (i : Nat) (h : i < d.length) : dAt d i = d[i] := by
  simp [dAt, List.getD_eq_getElem?_getD, List.getElem?_eq_getElem h]

/-- Writing back the little-endian `u16` just read reproduces exactly the two
bytes already at that offset. -/
theorem le16_readU16 (d : List Byte) (off : Nat) (h : off + 2 ≤ d.length) :
    le16 (readU16 d off) = [dAt d off, dAt d (off + 1)] := by
  have h0 : off < d.length := by omega
  have h1 : off + 1 < d.length := by omega
  have hdrop : d.drop off = d[off] :: d[off + 1] :: d.drop (off + 2) := by
    rw [List.drop_eq_getElem_cons h0, List.drop_eq_getElem_cons h1]
  have hb0 : d[off].val < 256 := d[off].isLt
  have hb1 : d[off + 1].val < 256 := d[off + 1].isLt
  have e0 : byte (d[off].val + 256 * d[off + 1].val) = d[off] := by
    apply Fin.ext
    show (d[off].val + 256 * d[off + 1].val) % 256 = d[off].val
    omega
  have e1 : byte ((d[off].val + 256 * d[off + 1].val) / 256) = d[off + 1] := by
    apply Fin.ext
    show (d[off].val + 256 * d[off + 1].val) / 256 % 256 = d[off + 1].val
    omega
  simp only [readU16, hdrop, le16]
  rw [e0, e1, dAt_eq_getElem d off h0, dAt_eq_getElem d (off + 1) h1]

/-- A packet that fails the marker gate, or matches neither classification,
passes through `scan_packets`' loop body untouched with no commands. -/
theorem scanOne_passthrough (cfg : AppConfig) (peer : SockAddr)
    (bindP : Nat → Except ErrK Nat) (addrs : List (SockAddr × SockAddr)) (p : Packet)
    (h : ¬(gateB p.data = true ∧ (loginB p.data = true ∨ transferB p.data = true))) :
    scanOne cfg peer bindP addrs p = .ok (p, []) := by
  unfold scanOne
  by_cases hg : gateB p.data = true
  · have hOr : ¬((loginB p.data || transferB p.data) = true) := by
      simp only [Bool.or_eq_true]
      intro hc
      exact h ⟨hg, hc⟩
    rw [if_pos hg, if_neg hOr]
  · rw [if_neg hg]

/-- The full evaluation of `scan_packets`' loop body on a packet matching the
login-response or transfer classification, with enough bytes for the port
read and the IP overwrite, and a successful relay bind: the IP field is
overwritten with the external IP, the port field is overwritten with the
very port value read from the packet, and a command is emitted exactly when
the computed backend address is not yet registered. -/
theorem scanOne_match (cfg : AppConfig) (peer : SockAddr)
    (bindP : Nat → Except ErrK Nat) (addrs : List (SockAddr × SockAddr))
    (rel : Reliability) (d : List Byte) (bp : Nat)
    (hg : gateB d = true)
    (hm : loginB d = true ∨ transferB d = true)
    (hport : (if loginB d then 411 else 8 + 33) + 2 ≤ d.length)
    (hip : (if loginB d then 345 else 8) + (strBytes cfg.external_ip).length ≤ d.length)
    (hbind : bindP (readU16 d (if loginB d then 411 else 8 + 33)) = .ok bp) :
    scanOne cfg peer bindP addrs ⟨rel, d⟩ =
      .ok (⟨rel, writeAt (writeAt d (if loginB d then 345 else 8) (strBytes cfg.external_ip))
                   (if loginB d then 411 else 8 + 33)
                   (le16 (readU16 d (if loginB d then 411 else 8 + 33)))⟩,
           if lookupA addrs ⟨peer.ip, readU16 d (if loginB d then 411 else 8 + 33)⟩ = none
           then [ShimCommand.newShim ⟨peer.ip, readU16 d (if loginB d then 411 else 8 + 33)⟩
                   ⟨⟨peer.ip, readU16 d (if loginB d then 411 else 8 + 33)⟩, cfg.bind_to, bp⟩]
           else []) := by
  have hOr : (loginB d || transferB d) = true := by
    rcases hm with hm | hm <;> simp [hm]
  unfold scanOne
  dsimp only
  rw [if_pos hg, if_pos hOr,
      if_neg (show ¬d.length < (if loginB d then 411 else 8 + 33) from by omega),
      if_neg (show ¬d.length < (if loginB d then 411 else 8 + 33) + 2 from by omega)]
  by_cases hlook : lookupA addrs ⟨peer.ip, readU16 d (if loginB d then 411 else 8 + 33)⟩ = none
  · rw [if_pos hlook, hbind, if_pos hlook]
    dsimp only
    rw [if_neg (show ¬d.length < (if loginB d then 345 else 8) from by omega),
        if_neg (show ¬d.length <
          (if loginB d then 345 else 8) + (strBytes cfg.external_ip).length from by omega)]
  · rw [if_neg hlook, if_neg hlook]
    dsimp only
    rw [if_neg (show ¬d.length < (if loginB d then 345 else 8) from by omega),
        if_neg (show ¬d.length <
          (if loginB d then 345 else 8) + (strBytes cfg.external_ip).length from by omega)]

/-- Lookup after `HashMap::insert` of the same key finds the inserted value. -/
theorem lookupA_insertKV {β : Type} (l : List (SockAddr × β)) (k : SockAddr) (v : β) :
    lookupA (insertKV l k v) k = some v := by
  induction l with
  | nil => simp [insertKV, lookupA]
  | cons e t ih =>
    obtain ⟨a, b⟩ := e
    by_cases hak : a = k
    · simp [insertKV, hak, lookupA]
    · simp [insertKV, hak, lookupA, ih]

/-- C5 — Pass-through: every packet that does not carry the marker 83,5 at
offsets 0-1, or is at most 8 bytes long, or carries the marker but matches
neither the login-response nor the transfer classification, is returned by
interception byte-for-byte identical, and a batch of such packets produces
no commands. -/
theorem scan_passthrough (cfg : AppConfig) (peer : SockAddr)
    (bindP : Nat → Except ErrK Nat) (addrs : List (SockAddr × SockAddr))
    (ps : List Packet)
    (h : ∀ p ∈ ps, ¬(gateB p.data = true ∧ (loginB p.data = true ∨ transferB p.data = true))) :
    scanPackets cfg peer bindP addrs ps = .ok (ps, []) := by
  induction ps with
  | nil => rfl
  | cons p ps ih =>
    have hp := h p (List.mem_cons_self p ps)
    have hps : ∀ q ∈ ps,
        ¬(gateB q.data = true ∧ (loginB q.data = true ∨ transferB q.data = true)) :=
      fun q hq => h q (List.mem_cons_of_mem p hq)
    simp only [scanPackets]
    rw [scanOne_passthrough cfg peer bindP addrs p hp]
    dsimp only
    rw [ih hps]
    rfl

/-- C5 witness: a 20-byte packet without the marker passes through. -/
theorem scan_passthrough_witness :
    (∀ p ∈ [pPlain],
      ¬(gateB p.data = true ∧ (loginB p.data = true ∨ transferB p.data = true))) ∧
    scanPackets cfgC peerC bindPC [] [pPlain] = .ok ([pPlain], []) :=
  ⟨by decide, scan_passthrough cfgC peerC bindPC [] [pPlain] (by decide)⟩

/-- C1 (amended) — Redirect rewrite: for a decoded packet classified as a
login response or a transfer-to-world (with enough bytes for the port read
and the IP overwrite, and a successful relay bind), interception overwrites
the embedded IP field (offset 345 for login response, 8 for transfer) with
the configured external IP, and overwrites the little-endian port field
(offset 411 resp. 41) with the very port value it just read from the packet
— i.e. it leaves those two bytes unchanged (second conjunct).  The written
port therefore equals the relay's locally bound port only when the two
coincide (as they do when a fresh relay binds a nonzero requested port), and
in particular not when the port read was 0 and the relay was bound to a
kernel-chosen ephemeral port. -/
theorem scan_rewrite_fields (cfg : AppConfig) (peer : SockAddr)
    (bindP : Nat → Except ErrK Nat) (addrs : List (SockAddr × SockAddr))
    (rel : Reliability) (d : List Byte) (bp : Nat)
    (hg : gateB d = true)
    (hm : loginB d = true ∨ transferB d = true)
    (hport : (if loginB d then 411 else 8 + 33) + 2 ≤ d.length)
    (hip : (if loginB d then 345 else 8) + (strBytes cfg.external_ip).length ≤ d.length)
    (hbind : bindP (readU16 d (if loginB d then 411 else 8 + 33)) = .ok bp) :
    scanOne cfg peer bindP addrs ⟨rel, d⟩ =
      .ok (⟨rel, writeAt (writeAt d (if loginB d then 345 else 8) (strBytes cfg.external_ip))
                   (if loginB d then 411 else 8 + 33)
                   (le16 (readU16 d (if loginB d then 411 else 8 + 33)))⟩,
           if lookupA addrs ⟨peer.ip, readU16 d (if loginB d then 411 else 8 + 33)⟩ = none
           then [ShimCommand.newShim ⟨peer.ip, readU16 d (if loginB d then 411 else 8 + 33)⟩
                   ⟨⟨peer.ip, readU16 d (if loginB d then 411 else 8 + 33)⟩, cfg.bind_to, bp⟩]
           else []) ∧
    le16 (readU16 d (if loginB d then 411 else 8 + 33)) =
      [dAt d (if loginB d then 411 else 8 + 33),
       dAt d ((if loginB d then 411 else 8 + 33) + 1)] :=
  ⟨scanOne_match cfg peer bindP addrs rel d bp hg hm hport hip hbind,
   le16_readU16 d (if loginB d then 411 else 8 + 33) hport⟩

/-- C1 counterexample: a transfer-to-world packet whose embedded port field
is 0.  The bind of the wildcard address at port 0 yields the kernel-chosen
ephemeral port 5000, so the relay listener registered for backend
`10.0.0.5:0` is bound at port 5000 — but the intercepted packet leaves the
port field at offsets 41..42 as 0,0 instead of the relay's bound port 5000
(little-endian 136,19), contradicting the claim that the port field is
overwritten with the local port the relay listener is actually bound to. -/
theorem scan_rewrite_fields_cx :
    scanOne cfgC peerC bindPC [] pT0 =
      .ok (⟨Reliability.reliableOrdered,
            writeAt (writeAt dT0 8 (strBytes cfgC.external_ip)) 41 (le16 0)⟩,
           [ShimCommand.newShim ⟨"10.0.0.5", 0⟩ ⟨⟨"10.0.0.5", 0⟩, "0.0.0.0", 5000⟩]) ∧
    dAt (writeAt (writeAt dT0 8 (strBytes cfgC.external_ip)) 41 (le16 0)) 41 = byte 0 ∧
    dAt (writeAt (writeAt dT0 8 (strBytes cfgC.external_ip)) 41 (le16 0)) 42 = byte 0 ∧
    le16 5000 = [byte 136, byte 19] ∧ byte 136 ≠ byte 0 := by
  decide

/-- C1 witness: a transfer packet with embedded port 7777 and an empty
registry; the relay binds at 7777 and the packet's IP field is rewritten. -/
theorem scan_rewrite_fields_witness :
    gateB dT1 = true ∧
    (loginB dT1 = true ∨ transferB dT1 = true) ∧
    (if loginB dT1 then 411 else 8 + 33) + 2 ≤ dT1.length ∧
    (if loginB dT1 then 345 else 8) + (strBytes cfgC.external_ip).length ≤ dT1.length ∧
    bindPC (readU16 dT1 (if loginB dT1 then 411 else 8 + 33)) = .ok 7777 ∧
    (scanOne cfgC peerC bindPC [] ⟨Reliability.reliableOrdered, dT1⟩ =
      .ok (⟨Reliability.reliableOrdered,
            writeAt (writeAt dT1 (if loginB dT1 then 345 else 8) (strBytes cfgC.external_ip))
              (if loginB dT1 then 411 else 8 + 33)
              (le16 (readU16 dT1 (if loginB dT1 then 411 else 8 + 33)))⟩,
           if lookupA ([] : List (SockAddr × SockAddr))
                ⟨peerC.ip, readU16 dT1 (if loginB dT1 then 411 else 8 + 33)⟩ = none
           then [ShimCommand.newShim ⟨peerC.ip, readU16 dT1 (if loginB dT1 then 411 else 8 + 33)⟩
                   ⟨⟨peerC.ip, readU16 dT1 (if loginB dT1 then 411 else 8 + 33)⟩,
                    cfgC.bind_to, 7777⟩]
           else []) ∧
     le16 (readU16 dT1 (if loginB dT1 then 411 else 8 + 33)) =
       [dAt dT1 (if loginB dT1 then 411 else 8 + 33),
        dAt dT1 ((if loginB dT1 then 411 else 8 + 33) + 1)]) :=
  ⟨by decide, by decide, by decide, by decide, by decide,
   scan_rewrite_fields cfgC peerC bindPC [] Reliability.reliableOrdered dT1 7777
     (by decide) (by decide) (by decide) (by decide) (by decide)⟩

/-- C2 (amended) — Relay uniqueness across ticks: an interception whose
computed backend address is already in the relay registry produces zero
commands, and a first interception of an unseen backend produces exactly one
new-Shim command; once the orchestrator applies that command the backend is
registered (second conjunct), so interceptions on later ticks produce zero
commands for it.  However, interceptions happening before the orchestrator
has applied the pending command — e.g. in the same tick — are checked
against the not-yet-updated registry and can each produce a further command
for the same backend address (see the counterexample). -/
theorem registry_once_per_backend (cfg : AppConfig) (peer : SockAddr)
    (bindP : Nat → Except ErrK Nat) (addrs : List (SockAddr × SockAddr))
    (rel : Reliability) (d : List Byte) (bp : Nat)
    (hg : gateB d = true)
    (hm : loginB d = true ∨ transferB d = true)
    (hport : (if loginB d then 411 else 8 + 33) + 2 ≤ d.length)
    (hip : (if loginB d then 345 else 8) + (strBytes cfg.external_ip).length ≤ d.length)
    (hbind : bindP (readU16 d (if loginB d then 411 else 8 + 33)) = .ok bp) :
    scanOne cfg peer bindP addrs ⟨rel, d⟩ =
      .ok (⟨rel, writeAt (writeAt d (if loginB d then 345 else 8) (strBytes cfg.external_ip))
                   (if loginB d then 411 else 8 + 33)
                   (le16 (readU16 d (if loginB d then 411 else 8 + 33)))⟩,
           if lookupA addrs ⟨peer.ip, readU16 d (if loginB d then 411 else 8 + 33)⟩ = none
           then [ShimCommand.newShim ⟨peer.ip, readU16 d (if loginB d then 411 else 8 + 33)⟩
                   ⟨⟨peer.ip, readU16 d (if loginB d then 411 else 8 + 33)⟩, cfg.bind_to, bp⟩]
           else []) ∧
    (∀ (a : List (SockAddr × SockAddr)) (ca : SockAddr) (sh : ShimInfo),
        lookupA (insertKV a ca (localAddr sh)) ca = some (localAddr sh)) :=
  ⟨scanOne_match cfg peer bindP addrs rel d bp hg hm hport hip hbind,
   fun a ca sh => lookupA_insertKV a ca (localAddr sh)⟩

/-- C2 counterexample: two transfer packets redirecting to the same unseen
backend address, decoded in the same tick (here even in the same batch):
the second interception happens before the orchestrator has applied the
first pending command, so the registry check misses it and a second new-Shim
command for the very same backend address is produced — not zero. -/
theorem registry_once_per_backend_cx :
    Except.map (fun r => r.2) (scanPackets cfgC peerC bindPC [] [pT0, pT0]) =
      .ok [ShimCommand.newShim ⟨"10.0.0.5", 0⟩ ⟨⟨"10.0.0.5", 0⟩, "0.0.0.0", 5000⟩,
           ShimCommand.newShim ⟨"10.0.0.5", 0⟩ ⟨⟨"10.0.0.5", 0⟩, "0.0.0.0", 5000⟩] := by
  decide

/-- C2 witness: for an already-registered backend the same interception
yields zero commands (the registry lookup is `some`, so the `if` selects
`[]`), at the concrete transfer packet with port 7777. -/
theorem registry_once_per_backend_witness :
    gateB dT1 = true ∧
    (loginB dT1 = true ∨ transferB dT1 = true) ∧
    (if loginB dT1 then 411 else 8 + 33) + 2 ≤ dT1.length ∧
    (if loginB dT1 then 345 else 8) + (strBytes cfgC.external_ip).length ≤ dT1.length ∧
    bindPC (readU16 dT1 (if loginB dT1 then 411 else 8 + 33)) = .ok 7777 ∧
    (scanOne cfgC peerC bindPC [(⟨"10.0.0.5", 7777⟩, ⟨"0.0.0.0", 7777⟩)]
        ⟨Reliability.reliableOrdered, dT1⟩ =
      .ok (⟨Reliability.reliableOrdered,
            writeAt (writeAt dT1 (if loginB dT1 then 345 else 8) (strBytes cfgC.external_ip))
              (if loginB dT1 then 411 else 8 + 33)
              (le16 (readU16 dT1 (if loginB dT1 then 411 else 8 + 33)))⟩,
           if lookupA ([(⟨"10.0.0.5", 7777⟩, ⟨"0.0.0.0", 7777⟩)] : List (SockAddr × SockAddr))
                ⟨peerC.ip, readU16 dT1 (if loginB dT1 then 411 else 8 + 33)⟩ = none
           then [ShimCommand.newShim ⟨peerC.ip, readU16 dT1 (if loginB dT1 then 411 else 8 + 33)⟩
                   ⟨⟨peerC.ip, readU16 dT1 (if loginB dT1 then 411 else 8 + 33)⟩,
                    cfgC.bind_to, 7777⟩]
           else []) ∧
     (∀ (a : List (SockAddr × SockAddr)) (ca : SockAddr) (sh : ShimInfo),
        lookupA (insertKV a ca (localAddr sh)) ca = some (localAddr sh))) :=
  ⟨by decide, by decide, by decide, by decide, by decide,
   registry_once_per_backend cfgC peerC bindPC [(⟨"10.0.0.5", 7777⟩, ⟨"0.0.0.0", 7777⟩)]
     Reliability.reliableOrdered dT1 7777
     (by decide) (by decide) (by decide) (by decide) (by decide)⟩

/-- The server-side retain pass distributes over concatenation of the bridge
map: each bridge's fate depends only on its own outcome. -/
theorem retainServer_append {α : Type} (sout : α → Except ErrK (List ShimCommand) × α)
    (xs ys : List (SockAddr × α)) :
    retainServer sout (xs ++ ys) =
      ((retainServer sout xs).1 ++ (retainServer sout ys).1,
       (retainServer sout xs).2.1 ++ (retainServer sout ys).2.1,
       (retainServer sout xs).2.2 ++ (retainServer sout ys).2.2) := by
  induction xs with
  | nil => simp [retainServer]
  | cons x t ih =>
    obtain ⟨a, b⟩ := x
    simp only [List.cons_append, retainServer]
    rcases hs : sout b with ⟨r, b1⟩
    cases r with
    | ok cmds => simp [ih, List.append_assoc]
    | error e => simp [ih, List.append_assoc]

/-- C6 (amended) — Reset/abort teardown: when `pull_from_server` returns an
error of kind connection-reset or connection-aborted (for instance because
the RakNet adapter's `handle_datagram` reports it — first conjunct), the
owning Shim removes that Bridge from its map and does not emit the generic
error log: a reset produces only the plain reset notice and an abort nothing
(second conjunct).  However, a connection-reset arising from the backend UDP
socket's `recv_from` call itself is swallowed inside `server_receive`, which
returns `Ok`, so that Bridge is retained — see the counterexample. -/
theorem reset_abort_teardown {α : Type} (handle : List Byte → Except ErrK (List Packet))
    (sendC : List Packet → Except ErrK Unit) (cfg : AppConfig) (peer : SockAddr)
    (bindP : Nat → Except ErrK Nat) (addrs : List (SockAddr × SockAddr))
    (bs : List Byte) (evs : List UdpEv) (e : ErrK)
    (he : e = ErrK.connReset ∨ e = ErrK.connAborted)
    (hh : handle bs = .error e)
    (sout : α → Except ErrK (List ShimCommand) × α) (a : SockAddr) (b b1 : α)
    (rest : List (SockAddr × α)) (hb : sout b = (.error e, b1)) :
    serverReceive handle sendC cfg peer bindP addrs (UdpEv.dgram bs :: evs) = .error e ∧
    retainServer sout ((a, b) :: rest) =
      ((retainServer sout rest).1, (retainServer sout rest).2.1,
       (if e = ErrK.connReset then [LogEntry.resetNotice] else []) ++
         (retainServer sout rest).2.2) := by
  constructor
  · simp only [serverReceive, hh]
  · simp only [retainServer, hb]
    rcases he with he | he <;> subst he <;> simp

/-- C6 counterexample: a `ConnectionReset` produced by the backend UDP
socket's `recv_from` call is treated like `WouldBlock` inside
`server_receive` (bridge.rs:90-97): the call returns `Ok` with no commands,
and the Shim's retain pass therefore keeps the Bridge in its map — the
Bridge is not torn down, contradicting the claim. -/
theorem reset_abort_teardown_cx :
    serverReceive (fun _ => .ok []) (fun _ => .ok ()) cfgC peerC bindPC []
      [UdpEv.rerr ErrK.connReset] = .ok [] ∧
    (retainServer
      (fun b : Nat =>
        (serverReceive (fun _ => .ok []) (fun _ => .ok ()) cfgC peerC bindPC []
          [UdpEv.rerr ErrK.connReset], b))
      [(peerC, 0)]).1 = [(peerC, 0)] :=
  ⟨rfl, rfl⟩

/-- C6 witness: a datagram whose adapter processing reports a reset, next to
a bridge whose `server_receive` outcome is that reset. -/
theorem reset_abort_teardown_witness :
    (ErrK.connReset = ErrK.connReset ∨ ErrK.connReset = ErrK.connAborted) ∧
    ((fun (_ : List Byte) => (.error .connReset : Except ErrK (List Packet))) [] =
      .error ErrK.connReset) ∧
    ((fun (b : Nat) => ((.error .connReset : Except ErrK (List ShimCommand)), b)) 0 =
      (.error ErrK.connReset, 0)) ∧
    (serverReceive (fun _ => .error .connReset) (fun _ => .ok ()) cfgC peerC bindPC []
        (UdpEv.dgram [] :: []) = .error ErrK.connReset ∧
     retainServer (fun (b : Nat) => ((.error .connReset : Except ErrK (List ShimCommand)), b))
         ((peerC, 0) :: []) =
       ((retainServer (fun (b : Nat) =>
            ((.error .connReset : Except ErrK (List ShimCommand)), b)) []).1,
        (retainServer (fun (b : Nat) =>
            ((.error .connReset : Except ErrK (List ShimCommand)), b)) []).2.1,
        (if ErrK.connReset = ErrK.connReset then [LogEntry.resetNotice] else []) ++
          (retainServer (fun (b : Nat) =>
            ((.error .connReset : Except ErrK (List ShimCommand)), b)) []).2.2)) :=
  ⟨Or.inl rfl, rfl, rfl,
   reset_abort_teardown (fun _ => .error .connReset) (fun _ => .ok ()) cfgC peerC bindPC []
     [] [] ErrK.connReset (Or.inl rfl) rfl
     (fun (b : Nat) => ((.error .connReset : Except ErrK (List ShimCommand)), b))
     peerC 0 0 [] rfl⟩

/-- The client-side retain pass distributes over concatenation of the bridge
map: each bridge's fate depends only on its own receive and forward outcome. -/
theorem clientRetain_append {α : Type} (cout : α → Except ErrK (List Byte) × α)
    (fout : α → List Byte → Except ErrK Unit × α) (xs ys : List (SockAddr × α)) :
    clientRetain cout fout (xs ++ ys) =
      ((clientRetain cout fout xs).1 ++ (clientRetain cout fout ys).1,
       (clientRetain cout fout xs).2 ++ (clientRetain cout fout ys).2) := by
  induction xs with
  | nil => simp [clientRetain]
  | cons x t ih =>
    obtain ⟨a, b⟩ := x
    simp only [List.cons_append, clientRetain]
    rcases hc : cout b with ⟨r, b1⟩
    cases r with
    | ok msg =>
      rcases hf : fout b1 msg with ⟨fr, b2⟩
      cases fr with
      | ok u => simp [ih, hc, hf]
      | error e2 => simp [ih, hc, hf]
    | error e =>
      by_cases hr1 : e = ErrK.connReset
      · subst hr1
        simp [ih, hc]
      · by_cases hw : e = ErrK.wouldBlock
        · subst hw
          simp [ih, hc, hr1]
        · simp [ih, hc, hr1, hw]

/-- C7 — Isolation: a Bridge removal — whether the client-receive retain
pass drops a Bridge on a hard reset reported by `client_receive`
(main.rs:121-123) or the step retain pass drops one on any fatal
`server_receive` error (main.rs:92-99) — leaves every sibling Bridge's
processing, state and map entry unchanged and leaves the Shim's listener
port and backend address unchanged: each pass yields exactly the result it
would produce had the failing Bridge not been present, so every sibling is
still stepped by its own outcome on the same tick and remains in the map
for later ticks. -/
theorem bridge_failure_isolation {α : Type}
    (cout : α → Except ErrK (List Byte) × α)
    (fout : α → List Byte → Except ErrK Unit × α)
    (sout : α → Except ErrK (List ShimCommand) × α)
    (ca : SockAddr) (bp : Nat)
    (preC postC : List (SockAddr × α)) (aC : SockAddr) (bC b1 : α)
    (hcb : cout bC = (.error ErrK.connReset, b1))
    (preS postS : List (SockAddr × α)) (aS : SockAddr) (bS b2 : α) (e : ErrK)
    (hsb : sout bS = (.error e, b2)) :
    clientRetain cout fout (preC ++ (aC, bC) :: postC) =
      clientRetain cout fout (preC ++ postC) ∧
    (stepServer sout ⟨ca, bp, preS ++ (aS, bS) :: postS⟩).1.connect_addr = ca ∧
    (stepServer sout ⟨ca, bp, preS ++ (aS, bS) :: postS⟩).1.bound_port = bp ∧
    (stepServer sout ⟨ca, bp, preS ++ (aS, bS) :: postS⟩).1.bridges =
      (stepServer sout ⟨ca, bp, preS ++ postS⟩).1.bridges ∧
    (stepServer sout ⟨ca, bp, preS ++ (aS, bS) :: postS⟩).2.1 =
      (stepServer sout ⟨ca, bp, preS ++ postS⟩).2.1 := by
  constructor
  · rw [clientRetain_append, clientRetain_append]
    have hmid : clientRetain cout fout ((aC, bC) :: postC) =
        clientRetain cout fout postC := by
      simp only [clientRetain, hcb]
      simp
    rw [hmid]
  · unfold stepServer
    dsimp only
    rw [retainServer_append, retainServer_append]
    simp only [retainServer, hsb]
    simp

/-- C7 witness: three bridges in each pass; the middle one reports a hard
reset (client side) resp. a fatal error (server side); the outer two are
kept and processed by their own outcomes, and the shim fields are kept. -/
theorem bridge_failure_isolation_witness :
    ((fun (b : Nat) => if b = 99 then ((.error .connReset : Except ErrK (List Byte)), b)
        else ((.ok [] : Except ErrK (List Byte)), b)) 99 = (.error ErrK.connReset, 99)) ∧
    ((fun (b : Nat) => if b = 99 then ((.error .connReset : Except ErrK (List ShimCommand)), b)
        else (.ok [], b + 1)) 99 = (.error ErrK.connReset, 99)) ∧
    (clientRetain
        (fun (b : Nat) => if b = 99 then ((.error .connReset : Except ErrK (List Byte)), b)
          else ((.ok [] : Except ErrK (List Byte)), b))
        (fun (b : Nat) (_ : List Byte) => ((.ok () : Except ErrK Unit), b))
        ([(⟨"1.1.1.1", 1⟩, 1)] ++ (⟨"9.9.9.9", 9⟩, 99) :: [(⟨"2.2.2.2", 2⟩, 2)]) =
      clientRetain
        (fun (b : Nat) => if b = 99 then ((.error .connReset : Except ErrK (List Byte)), b)
          else ((.ok [] : Except ErrK (List Byte)), b))
        (fun (b : Nat) (_ : List Byte) => ((.ok () : Except ErrK Unit), b))
        ([(⟨"1.1.1.1", 1⟩, 1)] ++ [(⟨"2.2.2.2", 2⟩, 2)]) ∧
     (stepServer (fun (b : Nat) => if b = 99 then
          ((.error .connReset : Except ErrK (List ShimCommand)), b) else (.ok [], b + 1))
        ⟨⟨"10.0.0.5", 1001⟩, 2000,
         [(⟨"1.1.1.1", 1⟩, 1)] ++ (⟨"9.9.9.9", 9⟩, 99) :: [(⟨"2.2.2.2", 2⟩, 2)]⟩).1.connect_addr =
        ⟨"10.0.0.5", 1001⟩ ∧
     (stepServer (fun (b : Nat) => if b = 99 then
          ((.error .connReset : Except ErrK (List ShimCommand)), b) else (.ok [], b + 1))
        ⟨⟨"10.0.0.5", 1001⟩, 2000,
         [(⟨"1.1.1.1", 1⟩, 1)] ++ (⟨"9.9.9.9", 9⟩, 99) :: [(⟨"2.2.2.2", 2⟩, 2)]⟩).1.bound_port =
        2000 ∧
     (stepServer (fun (b : Nat) => if b = 99 then
          ((.error .connReset : Except ErrK (List ShimCommand)), b) else (.ok [], b + 1))
        ⟨⟨"10.0.0.5", 1001⟩, 2000,
         [(⟨"1.1.1.1", 1⟩, 1)] ++ (⟨"9.9.9.9", 9⟩, 99) :: [(⟨"2.2.2.2", 2⟩, 2)]⟩).1.bridges =
       (stepServer (fun (b : Nat) => if b = 99 then
          ((.error .connReset : Except ErrK (List ShimCommand)), b) else (.ok [], b + 1))
        ⟨⟨"10.0.0.5", 1001⟩, 2000,
         [(⟨"1.1.1.1", 1⟩, 1)] ++ [(⟨"2.2.2.2", 2⟩, 2)]⟩).1.bridges ∧
     (stepServer (fun (b : Nat) => if b = 99 then
          ((.error .connReset : Except ErrK (List ShimCommand)), b) else (.ok [], b + 1))
        ⟨⟨"10.0.0.5", 1001⟩, 2000,
         [(⟨"1.1.1.1", 1⟩, 1)] ++ (⟨"9.9.9.9", 9⟩, 99) :: [(⟨"2.2.2.2", 2⟩, 2)]⟩).2.1 =
       (stepServer (fun (b : Nat) => if b = 99 then
          ((.error .connReset : Except ErrK (List ShimCommand)), b) else (.ok [], b + 1))
        ⟨⟨"10.0.0.5", 1001⟩, 2000,
         [(⟨"1.1.1.1", 1⟩, 1)] ++ [(⟨"2.2.2.2", 2⟩, 2)]⟩).2.1) :=
  ⟨rfl, rfl,
   bridge_failure_isolation
     (fun (b : Nat) => if b = 99 then ((.error .connReset : Except ErrK (List Byte)), b)
        else ((.ok [] : Except ErrK (List Byte)), b))
     (fun (b : Nat) (_ : List Byte) => ((.ok () : Except ErrK Unit), b))
     (fun (b : Nat) => if b = 99 then ((.error .connReset : Except ErrK (List ShimCommand)), b)
        else (.ok [], b + 1))
     ⟨"10.0.0.5", 1001⟩ 2000
     [(⟨"1.1.1.1", 1⟩, 1)] [(⟨"2.2.2.2", 2⟩, 2)] ⟨"9.9.9.9", 9⟩ 99 99 rfl
     [(⟨"1.1.1.1", 1⟩, 1)] [(⟨"2.2.2.2", 2⟩, 2)] ⟨"9.9.9.9", 9⟩ 99 99 ErrK.connReset rfl⟩

/-- C8 (amended) — Listener-scope error handling: a bind failure when
creating a Shim propagates via `?` — at startup it escapes `main` and the
process terminates (first conjunct).  But an error returned by the listening
socket's `accept` — of any kind, fatal ones included — is silently
discarded by the `while let Ok(..)` accept loop, which merely stops
accepting for that tick and returns the bridge map unchanged (second
conjunct): contrary to the claim, fatal accept errors never propagate to the
orchestrator. -/
theorem listener_error_handling (α : Type) :
    (∀ (e : ErrK) (ca : SockAddr), mainStartup (α := α) (.error e) ca = .error e) ∧
    (∀ (k : ErrK) (evs : List (AcceptEv α)) (bs : List (SockAddr × α)),
        acceptLoop (.aerr k :: evs) bs = .ok bs) :=
  ⟨fun _ _ => rfl, fun _ _ _ => rfl⟩

/-- C8 counterexample: a fatal (non-would-block) `accept` error is swallowed
— the accept loop, `client_receive` and the whole `Shim::step` still return
`Ok`, so nothing propagates to the orchestrator's main loop and the process
does not terminate. -/
theorem listener_error_handling_cx :
    acceptLoop (α := Nat) [AcceptEv.aerr ErrK.other] [] = .ok [] ∧
    clientReceiveM (fun (b : Nat) => (.error .wouldBlock, b)) (fun b _ => (.ok (), b))
      [AcceptEv.aerr ErrK.other] [] = .ok ([], []) ∧
    stepM (fun (b : Nat) => (.error .wouldBlock, b)) (fun b _ => (.ok (), b))
      (fun b => (.ok [], b)) [AcceptEv.aerr ErrK.other] ⟨peerC, 2000, []⟩ =
      .ok (⟨peerC, 2000, []⟩, [], []) :=
  ⟨rfl, rfl, rfl⟩

/-- Helper: an error while wrapping an accepted connection escapes
`client_receive` and `Shim::step`. -/
theorem stepM_error_of_accept {α : Type} (cout : α → Except ErrK (List Byte) × α)
    (fout : α → List Byte → Except ErrK Unit × α)
    (sout : α → Except ErrK (List ShimCommand) × α)
    (evs : List (AcceptEv α)) (sh : ShimState α) (e : ErrK)
    (h : acceptLoop evs sh.bridges = .error e) :
    stepM cout fout sout evs sh = .error e := by
  unfold stepM clientReceiveM
  rw [h]

/-- C10 — Bridge-creation failures are fatal: if `accept` hands over a new
client but wrapping it fails (`Connection::from`, or `create_bridge`'s UDP
bind / connect / 2-byte handshake send), the error propagates out of
`client_receive` and `Shim::step` and — provided the shims stepped before
this one succeed — out of the orchestrator's per-tick loop, whose `?` makes
`main` return the error and the process terminate; the per-Bridge isolation
boundary does not cover Bridge creation. -/
theorem bridge_creation_error_fatal {α : Type}
    (cout : α → Except ErrK (List Byte) × α) (fout : α → List Byte → Except ErrK Unit × α)
    (sout : α → Except ErrK (List ShimCommand) × α)
    (evsOf : ShimState α → List (AcceptEv α))
    (spre spost : List (ShimState α)) (sh : ShimState α)
    (addr : SockAddr) (e : ErrK) (rest : List (AcceptEv α))
    (hsh : evsOf sh = AcceptEv.conn addr (.error e) :: rest)
    (hpre : ∀ s ∈ spre, ∃ r, stepM cout fout sout (evsOf s) s = .ok r) :
    mainTickShims (fun s => stepM cout fout sout (evsOf s) s) (spre ++ sh :: spost) =
      .error e := by
  induction spre with
  | nil =>
    simp only [List.nil_append, mainTickShims]
    have hstep : stepM cout fout sout (evsOf sh) sh = .error e := by
      apply stepM_error_of_accept
      rw [hsh]
      rfl
    rw [hstep]
  | cons s0 t ih =>
    simp only [List.cons_append, mainTickShims]
    obtain ⟨r, hr⟩ := hpre s0 (List.mem_cons_self s0 t)
    rw [hr]
    rcases r with ⟨sh1, cmds, logs⟩
    dsimp only
    simp only [List.append_eq]
    rw [ih (fun s hs => hpre s (List.mem_cons_of_mem s0 hs))]

/-- C10 witness: one shim whose accept yields a client whose bridge creation
fails; the tick errors out with that error. -/
theorem bridge_creation_error_fatal_witness :
    ((fun (_ : ShimState Nat) => [AcceptEv.conn ⟨"9.9.9.9", 9⟩
        (.error ErrK.other : Except ErrK Nat)]) ⟨peerC, 2000, []⟩ =
      AcceptEv.conn ⟨"9.9.9.9", 9⟩ (.error ErrK.other) :: []) ∧
    (∀ s ∈ ([] : List (ShimState Nat)), ∃ r,
      stepM (fun (b : Nat) => (.error .wouldBlock, b)) (fun b _ => (.ok (), b))
        (fun b => (.ok [], b))
        ((fun (_ : ShimState Nat) => [AcceptEv.conn ⟨"9.9.9.9", 9⟩
            (.error ErrK.other : Except ErrK Nat)]) s) s = .ok r) ∧
    mainTickShims
      (fun s => stepM (fun (b : Nat) => (.error .wouldBlock, b)) (fun b _ => (.ok (), b))
        (fun b => (.ok [], b))
        ((fun (_ : ShimState Nat) => [AcceptEv.conn ⟨"9.9.9.9", 9⟩
            (.error ErrK.other : Except ErrK Nat)]) s) s)
      ([] ++ (⟨peerC, 2000, []⟩ : ShimState Nat) :: []) = .error ErrK.other :=
  ⟨rfl, by simp,
   bridge_creation_error_fatal
     (fun (b : Nat) => (.error .wouldBlock, b)) (fun b _ => (.ok (), b))
     (fun b => (.ok [], b))
     (fun (_ : ShimState Nat) => [AcceptEv.conn ⟨"9.9.9.9", 9⟩
        (.error ErrK.other : Except ErrK Nat)])
     [] [] ⟨peerC, 2000, []⟩ ⟨"9.9.9.9", 9⟩ ErrK.other [] rfl (by simp)⟩
